import Mathlib

/-!
# Verification of the hazo_logs query engine (`src/lib/log-reader.ts`)

Shallow embedding of the log reader: the pure pipeline of
`readLogs` (parse → filter → cap → total → sort → paginate), the metadata
queries (`getAvailableLogDates`, `getUnique*`), and the query-parameter
translation in `handleGetLogs` (`src/ui/api/log-api-handler.ts`).

Modelling conventions:
- File-system effects are abstracted: a day's log file is an
  `Option (List String)` (`none` = `fs.existsSync` is false, otherwise the
  list of lines produced by `readline`); a directory listing is an
  `Option (List String)` of file names.
- `JSON.parse` is an external runtime primitive; it is a parameter
  `jp : String → Option LogEntry` of the parsing stage (`none` = the line
  throws on parse, `some e` = the parsed record).  The reader performs no
  schema validation, which is reflected by `jp` being arbitrary.
- JavaScript numbers reaching the engine are modelled as `Int`; a
  `number | undefined` option field is `Option Int` where `none` stands for
  `undefined` or `NaN` (both falsy, and every such field is consumed through
  `||`-defaulting before any other use, so the two are observationally equal
  here).
- JS string comparison (`localeCompare`, `<` in the default `sort`) is
  modelled as code-unit lexicographic comparison `strCmp`; `toLowerCase`,
  `trim`-emptiness, `split(',')`, `includes` and `Array.prototype.slice`
  are given explicit executable models below.
- `Array.prototype.sort` with a consistent comparator `c` is required by the
  ECMAScript spec to produce the stable sort w.r.t. `c`; it is modelled as
  `List.mergeSort (fun a b => c a b ≤ 0)`, which is exactly that list.
-/

/-- The four log levels (`LogLevel` in `src/lib/types.ts`, re-stated in the
spec data model §3). -/
inductive Level where
  | error
  | warn
  | info
  | debug
deriving DecidableEq, Repr

/-- Provenance tag of a record (`source` field). -/
inductive LogSource where
  | server
  | client
deriving DecidableEq, Repr

/-- One structured log record.  Modelled from the spec: the `LogEntry`
interface lives in `src/lib/types.ts`, which is not part of the provided
sources; the field list follows spec §3 (Data Model) and the fields consumed
by `log-reader.ts`.  The `data` payload is opaque to the query engine and is
kept as an uninterpreted optional string. -/
structure LogEntry where
  timestamp : String
  level : Level
  package : String
  message : String
  filename : String
  line : Nat
  executionId : String
  sessionId : Option String := none
  reference : Option String := none
  depth : Option Nat := none
  data : Option String := none
  source : Option LogSource := none
deriving DecidableEq, Repr

/-- `HazoLogConfig` (shape from `src/lib/utils/constants.ts`); the two
numeric viewer settings are JS numbers, modelled as `Int`. -/
structure HazoLogConfig where
  log_directory : String
  log_level : Level
  enable_console : Bool
  enable_file : Bool
  max_file_size : String
  max_files : String
  date_pattern : String
  enable_log_viewer : Bool
  log_viewer_page_size : Int
  log_viewer_max_results : Int
deriving DecidableEq, Repr

/-- `DEFAULT_CONFIG` from `src/lib/utils/constants.ts`. -/
def DEFAULT_CONFIG : HazoLogConfig where
  log_directory := "./logs"
  log_level := Level.info
  enable_console := true
  enable_file := true
  max_file_size := "20m"
  max_files := "14d"
  date_pattern := "YYYY-MM-DD"
  enable_log_viewer := true
  log_viewer_page_size := 50
  log_viewer_max_results := 1000

/-- `ReadLogsOptions` from `src/lib/log-reader.ts`.  The `level` filter is a
list of strings: at runtime the handler passes unvalidated strings (the TS
annotation `LogLevel[]` is a cast), and the filter compares them against the
record's level string. -/
structure ReadLogsOptions where
  level : Option (List String) := none
  package : Option (List String) := none
  executionId : Option (List String) := none
  sessionId : Option (List String) := none
  reference : Option (List String) := none
  search : Option String := none
  sortBy : Option String := none
  sortOrder : Option String := none
  page : Option Int := none
  pageSize : Option Int := none
deriving DecidableEq, Repr

/-- `LogQueryResult` from `src/lib/log-reader.ts`. -/
structure LogQueryResult where
  logs : List LogEntry
  total : Int
  page : Int
  pageSize : Int
  totalPages : Int
deriving DecidableEq, Repr

/-- `LEVEL_ORDER` from `src/lib/log-reader.ts` (severity ranks). -/
def LEVEL_ORDER : Level → Int
  | Level.error => 0
  | Level.warn => 1
  | Level.info => 2
  | Level.debug => 3

/-- The wire string of a level (records are serialized with these strings). -/
def levelToStr : Level → String
  | Level.error => "error"
  | Level.warn => "warn"
  | Level.info => "info"
  | Level.debug => "debug"

/-! ## JavaScript primitive models -/

/-- Code-unit lexicographic three-way comparison of character lists; the
model of JS default string ordering and (locale-independent core of)
`localeCompare`. -/
def charListCmp : List Char → List Char → Int
  | [], [] => 0
  | [], _ :: _ => -1
  | _ :: _, [] => 1
  | a :: as, b :: bs =>
    if a.toNat < b.toNat then -1
    else if b.toNat < a.toNat then 1
    else charListCmp as bs

/-- Three-way string comparison (model of `a.localeCompare(b)` sign). -/
def strCmp (a b : String) : Int := charListCmp a.data b.data

/-- `!line.trim()`: a line is skipped iff every character is whitespace. -/
def isBlankLine (s : String) : Bool := s.data.all Char.isWhitespace

/-- Model of `String.prototype.toLowerCase`. -/
def jsToLower (s : String) : String := ⟨s.data.map Char.toLower⟩

/-- Boolean prefix test on character lists. -/
def isPrefixOfB : List Char → List Char → Bool
  | [], _ => true
  | _ :: _, [] => false
  | a :: as, b :: bs => a == b && isPrefixOfB as bs

/-- Boolean infix (contiguous substring) test on character lists. -/
def isInfixOfB (sub : List Char) : List Char → Bool
  | [] => isPrefixOfB sub []
  | c :: rest => isPrefixOfB sub (c :: rest) || isInfixOfB sub rest

/-- Model of `hay.includes(sub)` on strings. -/
def strIncludes (hay sub : String) : Bool := isInfixOfB sub.data hay.data

/-- Helper for `split(',')`: accumulate the current (reversed) chunk. -/
def splitCommaCore : List Char → List Char → List String
  | [], acc => [⟨acc.reverse⟩]
  | c :: rest, acc =>
    if c = ',' then ⟨acc.reverse⟩ :: splitCommaCore rest []
    else splitCommaCore rest (c :: acc)

/-- Model of `s.split(',')`. -/
def jsSplitComma (s : String) : List String := splitCommaCore s.data []

/-- Model of `parseInt(s, 10)`: optional leading whitespace, optional sign,
then the longest digit prefix; `none` models `NaN` (no digits). -/
def parseIntJS (s : String) : Option Int :=
  let cs := s.data.dropWhile Char.isWhitespace
  let signed : Int × List Char :=
    match cs with
    | '-' :: rest => (-1, rest)
    | '+' :: rest => (1, rest)
    | _ => (1, cs)
  let ds := signed.2.takeWhile Char.isDigit
  if ds = [] then none
  else some (signed.1 * (ds.foldl (fun acc c => acc * 10 + (c.toNat - 48)) 0 : Nat))

/-- JS `x || d` defaulting for an optional number (`none` = undefined/NaN;
`0` is falsy). -/
def jsOrOpt (x : Option Int) (d : Int) : Int :=
  match x with
  | none => d
  | some v => if v = 0 then d else v

/-- JS `x || d` defaulting for a number that is always present (`0` falsy). -/
def jsOrI (x d : Int) : Int := if x = 0 then d else x

/-- JS `x || d` defaulting for an optional string (`""` is falsy). -/
def jsOrStrD (x : Option String) (d : String) : String :=
  match x with
  | none => d
  | some s => if s = "" then d else s

/-- JS `x ? x : undefined` normalization of an optional string. -/
def jsStrOpt (x : Option String) : Option String :=
  match x with
  | none => none
  | some s => if s = "" then none else some s

/-- Model of `Array.prototype.slice(start, fin)` (negative indices count
from the end; bounds are clamped). -/
def jsSlice {α : Type} (l : List α) (start fin : Int) : List α :=
  let len : Int := l.length
  let relStart := if start < 0 then max (len + start) 0 else min start len
  let relEnd := if fin < 0 then max (len + fin) 0 else min fin len
  (l.drop relStart.toNat).take (relEnd - relStart).toNat

/-- Model of `Math.ceil(a / b)` for integer `a` and nonzero integer `b`
(the only way it is used below): `⌈a/b⌉ = -⌊-a/b⌋`. -/
def jsCeilDiv (a b : Int) : Int := -((-a).fdiv b)

/-- Model of collecting values through a JS `Set` and `Array.from`:
first-occurrence deduplication in insertion order. -/
def jsSetList (l : List String) : List String :=
  l.foldl (fun acc s => if acc.contains s then acc else acc ++ [s]) []

/-- Model of `Array.prototype.sort()` on strings (default comparator:
code-unit lexicographic, ascending). -/
def sortStringsAsc (l : List String) : List String :=
  l.mergeSort (fun a b => strCmp a b ≤ 0)

/-- Model of `dates.sort((a, b) => b.localeCompare(a))`: descending. -/
def sortStringsDesc (l : List String) : List String :=
  l.mergeSort (fun a b => strCmp b a ≤ 0)

/-! ## The query engine (`src/lib/log-reader.ts`) -/

/-- `parseLogFile` (lines 236–257): parse line by line, skipping blank lines
and lines on which `JSON.parse` throws; an entry that parses is accepted
as-is. -/
def parseLogFile (jp : String → Option LogEntry) : List String → List LogEntry
  | [] => []
  | line :: rest =>
    if isBlankLine line then parseLogFile jp rest
    else
      match jp line with
      | some entry => entry :: parseLogFile jp rest
      | none => parseLogFile jp rest

/-- `applyFilters` (lines 262–308): the six optional filter dimensions,
applied as successive `Array.prototype.filter` passes.  The `log.sessionId &&
…` / `log.reference && …` guards are JS truthiness tests, so a missing field
and an empty-string field both fail them. -/
def applyFilters (logs : List LogEntry) (o : ReadLogsOptions) : List LogEntry :=
  let f1 :=
    match o.level with
    | some fl =>
      if 0 < fl.length then logs.filter (fun log => fl.contains (levelToStr log.level))
      else logs
    | none => logs
  let f2 :=
    match o.package with
    | some fl =>
      if 0 < fl.length then f1.filter (fun log => fl.contains log.package)
      else f1
    | none => f1
  let f3 :=
    match o.executionId with
    | some fl =>
      if 0 < fl.length then f2.filter (fun log => fl.contains log.executionId)
      else f2
    | none => f2
  let f4 :=
    match o.sessionId with
    | some fl =>
      if 0 < fl.length then
        f3.filter (fun log =>
          match log.sessionId with
          | some s => !(s == "") && fl.contains s
          | none => false)
      else f3
    | none => f3
  let f5 :=
    match o.reference with
    | some fl =>
      if 0 < fl.length then
        f4.filter (fun log =>
          match log.reference with
          | some s => !(s == "") && fl.contains s
          | none => false)
      else f4
    | none => f4
  match o.search with
  | some s =>
    if s = "" then f5
    else
      let searchLower := jsToLower s
      f5.filter (fun log =>
        strIncludes (jsToLower log.message) searchLower ||
        strIncludes (jsToLower log.package) searchLower ||
        strIncludes (jsToLower log.filename) searchLower ||
        (match log.sessionId with
         | some v => !(v == "") && strIncludes (jsToLower v) searchLower
         | none => false) ||
        (match log.reference with
         | some v => !(v == "") && strIncludes (jsToLower v) searchLower
         | none => false))
  | none => f5

/-- `applySorting` (lines 313–337): a comparator-based full sort.  The
`switch (sortBy)` is string-equality dispatch; `case 'timestamp'` and
`default` share the timestamp comparator.  `sortOrder === 'asc' ? 1 : -1`
is the direction multiplier; `a.sessionId || ''` maps a missing (or empty)
value to the empty string. -/
def applySorting (logs : List LogEntry) (sortBy sortOrder : Option String) :
    List LogEntry :=
  let order : Int := if sortOrder = some "asc" then 1 else -1
  let cmp : LogEntry → LogEntry → Int := fun a b =>
    if sortBy = some "level" then (LEVEL_ORDER a.level - LEVEL_ORDER b.level) * order
    else if sortBy = some "package" then strCmp a.package b.package * order
    else if sortBy = some "executionId" then strCmp a.executionId b.executionId * order
    else if sortBy = some "sessionId" then
      strCmp (jsOrStrD a.sessionId "") (jsOrStrD b.sessionId "") * order
    else if sortBy = some "reference" then
      strCmp (jsOrStrD a.reference "") (jsOrStrD b.reference "") * order
    else strCmp a.timestamp b.timestamp * order
  logs.mergeSort (fun a b => cmp a b ≤ 0)

/-- `readLogs` (lines 45–93).  `cfg` is the result of `loadConfig()`; `file`
abstracts the target date's log file (`none` = `fs.existsSync` is false,
`some lines` = its lines). -/
def readLogs (cfg : HazoLogConfig) (jp : String → Option LogEntry)
    (file : Option (List String)) (o : ReadLogsOptions) : LogQueryResult :=
  let pageSize := jsOrOpt o.pageSize (jsOrI cfg.log_viewer_page_size 50)
  let page := jsOrOpt o.page 1
  let maxResults := jsOrI cfg.log_viewer_max_results 1000
  match file with
  | none =>
    { logs := [], total := 0, page := page, pageSize := pageSize, totalPages := 0 }
  | some lines =>
    let logs0 := parseLogFile jp lines
    let logs1 := applyFilters logs0 o
    let logs2 :=
      if maxResults < (logs1.length : Int) then jsSlice logs1 0 maxResults else logs1
    let total : Int := logs2.length
    let logs3 := applySorting logs2 o.sortBy o.sortOrder
    let totalPages := jsCeilDiv total pageSize
    let startIndex := (page - 1) * pageSize
    { logs := jsSlice logs3 startIndex (startIndex + pageSize)
      total := total
      page := page
      pageSize := pageSize
      totalPages := totalPages }

/-- The regex `^hazo-(\d{4}-\d{2}-\d{2})\.log$` capture: the date shape
`\d{4}-\d{2}-\d{2}`. -/
def isDateShape (cs : List Char) : Bool :=
  match cs with
  | [a, b, c, d, e, f, g, h, i, j] =>
    a.isDigit && b.isDigit && c.isDigit && d.isDigit && e = '-' &&
    f.isDigit && g.isDigit && h = '-' && i.isDigit && j.isDigit
  | _ => false

/-- Match a directory entry against `^hazo-(\d{4}-\d{2}-\d{2})\.log$`,
returning the captured date. -/
def matchLogFilename (s : String) : Option String :=
  match s.data with
  | 'h' :: 'a' :: 'z' :: 'o' :: '-' :: rest =>
    if isDateShape (rest.take 10) && rest.drop 10 = ['.', 'l', 'o', 'g'] then
      some ⟨rest.take 10⟩
    else none
  | _ => none

/-- `getAvailableLogDates` (lines 98–119): dates come from the directory
listing's file names, sorted descending; `dir = none` models a missing
directory. -/
def getAvailableLogDates (dir : Option (List String)) : List String :=
  match dir with
  | none => []
  | some files => sortStringsDesc (files.filterMap matchLogFilename)

/-- `getUniquePackages` (lines 124–147): distinct `package` values of the
full day (the `if (log.package)` truthiness guard drops empty strings),
sorted ascending. -/
def getUniquePackages (jp : String → Option LogEntry)
    (file : Option (List String)) : List String :=
  match file with
  | none => []
  | some lines =>
    let logs := parseLogFile jp lines
    sortStringsAsc (jsSetList (logs.filterMap (fun log =>
      if log.package = "" then none else some log.package)))

/-- `getUniqueExecutionIds` (lines 152–175). -/
def getUniqueExecutionIds (jp : String → Option LogEntry)
    (file : Option (List String)) : List String :=
  match file with
  | none => []
  | some lines =>
    let logs := parseLogFile jp lines
    sortStringsAsc (jsSetList (logs.filterMap (fun log =>
      if log.executionId = "" then none else some log.executionId)))

/-- `getUniqueSessionIds` (lines 180–203): the `if (log.sessionId)` guard is
a truthiness test, skipping both missing and empty-string values. -/
def getUniqueSessionIds (jp : String → Option LogEntry)
    (file : Option (List String)) : List String :=
  match file with
  | none => []
  | some lines =>
    let logs := parseLogFile jp lines
    sortStringsAsc (jsSetList (logs.filterMap (fun log =>
      match log.sessionId with
      | some s => if s = "" then none else some s
      | none => none)))

/-- `getUniqueReferences` (lines 208–231). -/
def getUniqueReferences (jp : String → Option LogEntry)
    (file : Option (List String)) : List String :=
  match file with
  | none => []
  | some lines =>
    let logs := parseLogFile jp lines
    sortStringsAsc (jsSetList (logs.filterMap (fun log =>
      match log.reference with
      | some s => if s = "" then none else some s
      | none => none)))

/-! ## The query surface (`src/ui/api/log-api-handler.ts`) -/

/-- The URL query parameters consumed by `handleGetLogs`
(`searchParams.get` returns `string | null`, modelled as `Option String`). -/
structure SearchParams where
  date : Option String := none
  level : Option String := none
  package : Option String := none
  executionId : Option String := none
  sessionId : Option String := none
  reference : Option String := none
  search : Option String := none
  sortBy : Option String := none
  sortOrder : Option String := none
  page : Option String := none
  pageSize : Option String := none
deriving Repr

/-- `handleGetLogs` (lines 84–148 of `log-api-handler.ts`): translate query
parameters into `ReadLogsOptions` and call `readLogs`.  Comma-separated
filters are split and cleansed with `filter(Boolean)`; `page`/`pageSize` go
through `parseInt(… || '1', 10)` (`none` = `NaN`); `sortBy`/`sortOrder` are
passed through unvalidated (the TS union annotation is a cast).  The JSON
`Response` envelope is serialization and is not modelled. -/
def handleGetLogs (cfg : HazoLogConfig) (jp : String → Option LogEntry)
    (file : Option (List String)) (sp : SearchParams) : LogQueryResult :=
  let splitParam : Option String → Option (List String) := fun v =>
    match jsStrOpt v with
    | some s => some ((jsSplitComma s).filter (fun x => !(x == "")))
    | none => none
  readLogs cfg jp file
    { level := splitParam sp.level
      package := splitParam sp.package
      executionId := splitParam sp.executionId
      sessionId := splitParam sp.sessionId
      reference := splitParam sp.reference
      search := jsStrOpt sp.search
      sortBy := sp.sortBy
      sortOrder := sp.sortOrder
      page := parseIntJS (jsOrStrD sp.page "1")
      pageSize := parseIntJS (jsOrStrD sp.pageSize "50") }

/-- The key comparator of `applySorting`, before the direction multiplier
(`switch (sortBy)` in lines 320–335 of `log-reader.ts`). -/
def sortKeyCmp (sortBy : Option String) (a b : LogEntry) : Int :=
  if sortBy = some "level" then LEVEL_ORDER a.level - LEVEL_ORDER b.level
  else if sortBy = some "package" then strCmp a.package b.package
  else if sortBy = some "executionId" then strCmp a.executionId b.executionId
  else if sortBy = some "sessionId" then
    strCmp (jsOrStrD a.sessionId "") (jsOrStrD b.sessionId "")
  else if sortBy = some "reference" then
    strCmp (jsOrStrD a.reference "") (jsOrStrD b.reference "")
  else strCmp a.timestamp b.timestamp

/-- `sortOrder === 'asc' ? 1 : -1`. -/
def orderMul (sortOrder : Option String) : Int :=
  if sortOrder = some "asc" then 1 else -1


/-! ## The filter dimensions of `applyFilters` -/

/-- The level dimension of `applyFilters` (inactive filters pass). -/
def levelDim (o : ReadLogsOptions) (log : LogEntry) : Bool :=
  match o.level with
  | some fl => if 0 < fl.length then fl.contains (levelToStr log.level) else true
  | none => true

/-- The package dimension of `applyFilters`. -/
def packageDim (o : ReadLogsOptions) (log : LogEntry) : Bool :=
  match o.package with
  | some fl => if 0 < fl.length then fl.contains log.package else true
  | none => true

/-- The executionId dimension of `applyFilters`. -/
def execDim (o : ReadLogsOptions) (log : LogEntry) : Bool :=
  match o.executionId with
  | some fl => if 0 < fl.length then fl.contains log.executionId else true
  | none => true

/-- The sessionId dimension of `applyFilters`: the record passes an active
filter only when its `sessionId` is present, non-empty (JS truthiness), and a
member of the requested set. -/
def sessionDim (o : ReadLogsOptions) (log : LogEntry) : Bool :=
  match o.sessionId with
  | some fl =>
    if 0 < fl.length then
      match log.sessionId with
      | some s => !(s == "") && fl.contains s
      | none => false
    else true
  | none => true

/-- The reference dimension of `applyFilters` (same absence/emptiness rule
as `sessionDim`). -/
def refDim (o : ReadLogsOptions) (log : LogEntry) : Bool :=
  match o.reference with
  | some fl =>
    if 0 < fl.length then
      match log.reference with
      | some s => !(s == "") && fl.contains s
      | none => false
    else true
  | none => true

/-- The free-text search dimension of `applyFilters`. -/
def searchDim (o : ReadLogsOptions) (log : LogEntry) : Bool :=
  match o.search with
  | some s =>
    if s = "" then true
    else
      let searchLower := jsToLower s
      strIncludes (jsToLower log.message) searchLower ||
      strIncludes (jsToLower log.package) searchLower ||
      strIncludes (jsToLower log.filename) searchLower ||
      (match log.sessionId with
       | some v => !(v == "") && strIncludes (jsToLower v) searchLower
       | none => false) ||
      (match log.reference with
       | some v => !(v == "") && strIncludes (jsToLower v) searchLower
       | none => false)
  | none => true

/-- The conjunction of all six filter dimensions. -/
def passAll (o : ReadLogsOptions) (log : LogEntry) : Bool :=
  searchDim o log && (refDim o log && (sessionDim o log && (execDim o log &&
    (packageDim o log && levelDim o log))))


/-- The capped, filtered record list of a `readLogs` call on an existing
file (stages parse → filter → cap). -/
def cappedOf (cfg : HazoLogConfig) (jp : String → Option LogEntry)
    (lines : List String) (o : ReadLogsOptions) : List LogEntry :=
  let logs1 := applyFilters (parseLogFile jp lines) o
  let maxResults := jsOrI cfg.log_viewer_max_results 1000
  if maxResults < (logs1.length : Int) then jsSlice logs1 0 maxResults else logs1

/-- The sorted, capped, filtered record list of a `readLogs` call (the
pipeline just before pagination). -/
def sortedCappedOf (cfg : HazoLogConfig) (jp : String → Option LogEntry)
    (file : Option (List String)) (o : ReadLogsOptions) : List LogEntry :=
  match file with
  | none => []
  | some lines => applySorting (cappedOf cfg jp lines o) o.sortBy o.sortOrder

/-- All records parsed from a day's file (empty when the file is missing). -/
def dayRecords (jp : String → Option LogEntry) (file : Option (List String)) :
    List LogEntry :=
  match file with
  | none => []
  | some lines => parseLogFile jp lines

/-- A concrete record used in the concrete evaluations below. -/
def recErr : LogEntry :=
  { timestamp := "2025-01-01T00:00:00.000Z", level := Level.error,
    package := "pkgA", message := "alpha", filename := "a.ts", line := 1,
    executionId := "ex1" }

/-- A second concrete record with a later timestamp and lower severity. -/
def recWarn : LogEntry :=
  { recErr with
    timestamp := "2025-01-02T00:00:00.000Z", level := Level.warn,
    message := "beta" }

/-- A record whose `sessionId` is present but the empty string. -/
def recEmptySession : LogEntry :=
  { recErr with sessionId := some "", reference := some "" }

/-- A record with non-empty `sessionId` and `reference`. -/
def recS1 : LogEntry := { recErr with sessionId := some "s1", reference := some "r1" }

/-- A two-record parse function: line "1" is `recErr`, line "2" is `recWarn`,
anything else fails to parse. -/
def jpTwo : String → Option LogEntry := fun s =>
  if s = "1" then some recErr else if s = "2" then some recWarn else none

/-! ## Facts about the string-comparison model -/

theorem Char.toNat_injective {a b : Char} (h : a.toNat = b.toNat) : a = b :=
  Char.ext (UInt32.toNat.inj h)

theorem charListCmp_eq_zero_iff : ∀ {as bs : List Char}, charListCmp as bs = 0 ↔ as = bs := by
  intro as
  induction as with
  | nil => intro bs; cases bs <;> simp [charListCmp]
  | cons a as ih =>
    intro bs
    cases bs with
    | nil => simp [charListCmp]
    | cons b bs =>
      simp only [charListCmp]
      split_ifs with h1 h2
      · constructor
        · intro h; exact absurd h (by decide)
        · intro h; injection h with hab htl; subst hab; omega
      · constructor
        · intro h; exact absurd h (by decide)
        · intro h; injection h with hab htl; subst hab; omega
      · have hab : a = b := Char.toNat_injective (by omega)
        subst hab
        simp [ih]

theorem charListCmp_swap : ∀ (as bs : List Char), charListCmp as bs = -(charListCmp bs as) := by
  intro as
  induction as with
  | nil => intro bs; cases bs <;> simp [charListCmp]
  | cons a as ih =>
    intro bs
    cases bs with
    | nil => simp [charListCmp]
    | cons b bs =>
      simp only [charListCmp]
      split_ifs with h1 h2 <;> first | omega | exact ih bs

theorem charListCmp_trans : ∀ {as bs cs : List Char},
    charListCmp as bs ≤ 0 → charListCmp bs cs ≤ 0 → charListCmp as cs ≤ 0 := by
  intro as
  induction as with
  | nil =>
    intro bs cs _ _
    cases cs <;> simp [charListCmp]
  | cons a as ih =>
    intro bs cs h1 h2
    cases bs with
    | nil => simp [charListCmp] at h1
    | cons b bs =>
      cases cs with
      | nil => simp [charListCmp] at h2
      | cons c cs =>
        simp only [charListCmp] at h1 h2 ⊢
        split_ifs at h1 with hab hba
        · split_ifs at h2 with hbc hcb
          · split_ifs <;> omega
          · omega
          · have : b = c := Char.toNat_injective (by omega)
            split_ifs <;> omega
        · omega
        · have hab2 : a = b := Char.toNat_injective (by omega)
          subst hab2
          split_ifs at h2 with hbc hcb
          · split_ifs <;> omega
          · omega
          · have hac : a = c := Char.toNat_injective (by omega)
            subst hac
            split_ifs with haa <;> first | omega | exact ih h1 h2

theorem strCmp_eq_zero_iff {a b : String} : strCmp a b = 0 ↔ a = b := by
  unfold strCmp
  rw [charListCmp_eq_zero_iff]
  exact ⟨fun h => String.ext h, fun h => by rw [h]⟩

theorem strCmp_swap (a b : String) : strCmp a b = -(strCmp b a) :=
  charListCmp_swap a.data b.data

theorem strCmp_trans {a b c : String} (h1 : strCmp a b ≤ 0) (h2 : strCmp b c ≤ 0) :
    strCmp a c ≤ 0 :=
  charListCmp_trans h1 h2

/-! ## Facts about the sort stage -/

theorem sortKeyCmp_swap (k : Option String) (a b : LogEntry) :
    sortKeyCmp k a b = -(sortKeyCmp k b a) := by
  unfold sortKeyCmp
  split_ifs <;> first | omega | exact strCmp_swap _ _

theorem sortKeyCmp_trans {k : Option String} {a b c : LogEntry}
    (h1 : sortKeyCmp k a b ≤ 0) (h2 : sortKeyCmp k b c ≤ 0) :
    sortKeyCmp k a c ≤ 0 := by
  unfold sortKeyCmp at h1 h2 ⊢
  split_ifs at h1 h2 ⊢ <;> first | omega | exact strCmp_trans h1 h2

theorem applySorting_eq (logs : List LogEntry) (k ord : Option String) :
    applySorting logs k ord =
      logs.mergeSort (fun a b => sortKeyCmp k a b * orderMul ord ≤ 0) := by
  simp only [applySorting, orderMul]
  congr 1
  funext a b
  unfold sortKeyCmp
  split_ifs <;> rfl

theorem sortLe_trans (k ord : Option String) {a b c : LogEntry}
    (h1 : sortKeyCmp k a b * orderMul ord ≤ 0)
    (h2 : sortKeyCmp k b c * orderMul ord ≤ 0) :
    sortKeyCmp k a c * orderMul ord ≤ 0 := by
  by_cases hord : ord = some "asc"
  · simp only [orderMul, hord, if_pos, mul_one] at h1 h2 ⊢
    exact sortKeyCmp_trans h1 h2
  · simp only [orderMul, if_neg hord, mul_neg_one, neg_nonpos] at h1 h2 ⊢
    have h1' : sortKeyCmp k b a ≤ 0 := by
      rw [sortKeyCmp_swap k b a]; omega
    have h2' : sortKeyCmp k c b ≤ 0 := by
      rw [sortKeyCmp_swap k c b]; omega
    have := sortKeyCmp_trans h2' h1'
    rw [sortKeyCmp_swap k c a] at this
    omega

theorem sortLe_total (k ord : Option String) (a b : LogEntry) :
    sortKeyCmp k a b * orderMul ord ≤ 0 ∨ sortKeyCmp k b a * orderMul ord ≤ 0 := by
  rcases le_or_lt (sortKeyCmp k a b * orderMul ord) 0 with h | h
  · exact Or.inl h
  · right
    rw [sortKeyCmp_swap k b a, neg_mul]
    linarith

theorem applySorting_perm (logs : List LogEntry) (k ord : Option String) :
    (applySorting logs k ord).Perm logs := by
  rw [applySorting_eq]
  exact List.mergeSort_perm _ _

theorem applySorting_length (logs : List LogEntry) (k ord : Option String) :
    (applySorting logs k ord).length = logs.length := by
  rw [applySorting_eq]
  exact List.length_mergeSort _

theorem applySorting_pairwise (logs : List LogEntry) (k ord : Option String) :
    (applySorting logs k ord).Pairwise
      (fun a b => sortKeyCmp k a b * orderMul ord ≤ 0) := by
  rw [applySorting_eq]
  have hp := @List.sorted_mergeSort LogEntry
    (fun a b => decide (sortKeyCmp k a b * orderMul ord ≤ 0))
    (fun a b c h1 h2 => by
      simp only [decide_eq_true_eq] at h1 h2 ⊢
      exact sortLe_trans k ord h1 h2)
    (fun a b => by
      simp only [Bool.or_eq_true, decide_eq_true_eq]
      exact sortLe_total k ord a b)
    logs
  exact hp.imp (fun h => by simpa using h)

theorem applySorting_stable (k ord : Option String) {logs : List LogEntry}
    {a b : LogEntry} (hsub : [a, b].Sublist logs) (heq : sortKeyCmp k a b = 0) :
    [a, b].Sublist (applySorting logs k ord) := by
  rw [applySorting_eq]
  refine List.sublist_mergeSort
    (fun x y z h1 h2 => by
      simp only [decide_eq_true_eq] at h1 h2 ⊢
      exact sortLe_trans k ord h1 h2)
    (fun x y => by
      simp only [Bool.or_eq_true, decide_eq_true_eq]
      exact sortLe_total k ord x y)
    ?_ hsub
  refine List.pairwise_cons.mpr ⟨?_, List.pairwise_singleton _ _⟩
  intro y hy
  rcases List.mem_singleton.mp hy with rfl
  simp [heq]

/-! ## Facts about the string sorting and deduplication models -/

theorem sortStringsAsc_perm (l : List String) : (sortStringsAsc l).Perm l :=
  List.mergeSort_perm l _

theorem sortStringsAsc_pairwise (l : List String) :
    (sortStringsAsc l).Pairwise (fun a b => strCmp a b ≤ 0) := by
  have hp := @List.sorted_mergeSort String
    (fun a b : String => decide (strCmp a b ≤ 0))
    (fun a b c h1 h2 => by
      simp only [decide_eq_true_eq] at h1 h2 ⊢
      exact strCmp_trans h1 h2)
    (fun a b => by
      simp only [Bool.or_eq_true, decide_eq_true_eq]
      rcases le_or_lt (strCmp a b) 0 with h | h
      · exact Or.inl h
      · right; rw [strCmp_swap]; omega)
    l
  exact hp.imp (fun h => by simpa using h)

theorem sortStringsDesc_perm (l : List String) : (sortStringsDesc l).Perm l :=
  List.mergeSort_perm l _

theorem sortStringsDesc_pairwise (l : List String) :
    (sortStringsDesc l).Pairwise (fun a b => strCmp b a ≤ 0) := by
  have hp := @List.sorted_mergeSort String
    (fun a b : String => decide (strCmp b a ≤ 0))
    (fun a b c h1 h2 => by
      simp only [decide_eq_true_eq] at h1 h2 ⊢
      exact strCmp_trans h2 h1)
    (fun a b => by
      simp only [Bool.or_eq_true, decide_eq_true_eq]
      rcases le_or_lt (strCmp b a) 0 with h | h
      · exact Or.inl h
      · right; rw [strCmp_swap]; omega)
    l
  exact hp.imp (fun h => by simpa using h)

theorem jsSetList_mem_aux (l : List String) :
    ∀ (acc : List String) (s : String),
      s ∈ l.foldl (fun acc s => if acc.contains s then acc else acc ++ [s]) acc ↔
        s ∈ acc ∨ s ∈ l := by
  induction l with
  | nil => intro acc s; simp
  | cons a l ih =>
    intro acc s
    simp only [List.foldl_cons]
    rw [ih]
    split_ifs with h
    · have ha : a ∈ acc := by simpa using h
      constructor
      · rintro (hs | hs)
        · exact Or.inl hs
        · exact Or.inr (List.mem_cons_of_mem a hs)
      · rintro (hs | hs)
        · exact Or.inl hs
        · rcases List.mem_cons.mp hs with rfl | hs
          · exact Or.inl ha
          · exact Or.inr hs
    · simp only [List.mem_append, List.mem_singleton, List.mem_cons]
      tauto

theorem jsSetList_mem {l : List String} {s : String} : s ∈ jsSetList l ↔ s ∈ l := by
  unfold jsSetList
  rw [jsSetList_mem_aux]
  simp

theorem jsSetList_nodup_aux (l : List String) :
    ∀ acc : List String,
      acc.Nodup →
      (l.foldl (fun acc s => if acc.contains s then acc else acc ++ [s]) acc).Nodup := by
  induction l with
  | nil => intro acc h; simpa using h
  | cons a l ih =>
    intro acc hacc
    simp only [List.foldl_cons]
    split_ifs with h
    · exact ih acc hacc
    · refine ih _ (List.nodup_append.mpr ⟨hacc, List.nodup_singleton a, ?_⟩)
      intro x hx hx1
      rcases List.mem_singleton.mp hx1 with rfl
      simp at h
      exact h hx

theorem jsSetList_nodup (l : List String) : (jsSetList l).Nodup :=
  jsSetList_nodup_aux l [] List.nodup_nil

/-! ## Facts about the slice and ceiling models -/

theorem jsSlice_nil {α : Type} (s e : Int) : jsSlice ([] : List α) s e = [] := by
  unfold jsSlice
  simp

theorem jsSlice_nonneg {α : Type} (l : List α) {s c : Int} (hs : 0 ≤ s) (hc : 0 ≤ c) :
    jsSlice l s (s + c) = (l.drop s.toNat).take c.toNat := by
  simp only [jsSlice]
  rw [if_neg (by omega), if_neg (by omega)]
  rcases le_or_lt s (l.length : Int) with h | h
  · rw [min_eq_left h]
    rcases le_or_lt (s + c) (l.length : Int) with h2 | h2
    · rw [min_eq_left h2]
      congr 1
      omega
    · rw [min_eq_right (le_of_lt h2)]
      rw [List.take_of_length_le (by simp [List.length_drop]; omega),
        List.take_of_length_le (by simp [List.length_drop]; omega)]
  · rw [min_eq_right (le_of_lt h), min_eq_right (by omega)]
    rw [List.drop_eq_nil_of_le (by omega), List.drop_eq_nil_of_le (by omega)]
    simp

theorem jsSlice_zero_take (l : List LogEntry) {m : Int} (hm : 0 ≤ m) :
    jsSlice l 0 m = l.take m.toNat := by
  have := @jsSlice_nonneg LogEntry l 0 m le_rfl hm
  simpa using this

theorem jsCeilDiv_bounds (a : Int) {b : Int} (hb : 0 < b) :
    a ≤ jsCeilDiv a b * b ∧ (jsCeilDiv a b - 1) * b < a := by
  unfold jsCeilDiv
  have hdm := Int.fdiv_add_fmod (-a) b
  have h0 : 0 ≤ (-a).fmod b := Int.fmod_nonneg' _ (by omega)
  have h1 : (-a).fmod b < b := Int.fmod_lt_of_pos _ hb
  constructor
  · have heq : -(-a).fdiv b * b = -(b * (-a).fdiv b) := by ring
    rw [heq]
    linarith
  · have heq : (-(-a).fdiv b - 1) * b = -(b * (-a).fdiv b) - b := by ring
    rw [heq]
    linarith

theorem jsCeilDiv_nonneg {a b : Int} (ha : 0 ≤ a) (hb : 0 < b) : 0 ≤ jsCeilDiv a b := by
  by_contra hneg
  push_neg at hneg
  have hle : jsCeilDiv a b ≤ -1 := by omega
  have := mul_le_mul_of_nonneg_right hle (le_of_lt hb)
  have hbound := (jsCeilDiv_bounds a hb).1
  linarith

theorem jsCeilDiv_eq_zero_iff {a b : Int} (ha : 0 ≤ a) (hb : 0 < b) :
    jsCeilDiv a b = 0 ↔ a = 0 := by
  constructor
  · intro h
    have hbound := (jsCeilDiv_bounds a hb).1
    rw [h] at hbound
    simp at hbound
    omega
  · intro h
    subst h
    unfold jsCeilDiv
    simp [Int.zero_fdiv]

set_option maxHeartbeats 8000000 in
theorem applyFilters_eq_filter (logs : List LogEntry) (o : ReadLogsOptions) :
    applyFilters logs o = logs.filter (passAll o) := by
  have hpa : passAll o = fun log =>
      searchDim o log && (refDim o log && (sessionDim o log && (execDim o log &&
        (packageDim o log && levelDim o log)))) := rfl
  rw [hpa]
  obtain ⟨lv, pk, ex, sid, rf, se, sb, so, pg, ps⟩ := o
  clear hpa
  cases lv <;> cases pk <;> cases ex <;> cases sid <;> cases rf <;> cases se <;>
      simp only [applyFilters, levelDim, packageDim, execDim, sessionDim,
        refDim, searchDim] <;>
      (try split_ifs) <;>
    first
      | rfl
      | (simp only [List.filter_filter, Bool.and_true, Bool.true_and,
          List.filter_true]
         try rfl)

/-! ## Facts about the `readLogs` pipeline -/

theorem readLogs_page_eq (cfg : HazoLogConfig) (jp : String → Option LogEntry)
    (file : Option (List String)) (o : ReadLogsOptions) :
    (readLogs cfg jp file o).page = jsOrOpt o.page 1 := by
  cases file <;> rfl

theorem readLogs_pageSize_eq (cfg : HazoLogConfig) (jp : String → Option LogEntry)
    (file : Option (List String)) (o : ReadLogsOptions) :
    (readLogs cfg jp file o).pageSize =
      jsOrOpt o.pageSize (jsOrI cfg.log_viewer_page_size 50) := by
  cases file <;> rfl

theorem readLogs_total_eq (cfg : HazoLogConfig) (jp : String → Option LogEntry)
    (file : Option (List String)) (o : ReadLogsOptions) :
    (readLogs cfg jp file o).total = ((sortedCappedOf cfg jp file o).length : Int) := by
  cases file with
  | none => rfl
  | some lines => simp [readLogs, sortedCappedOf, cappedOf, applySorting_length]

theorem readLogs_total_nonneg (cfg : HazoLogConfig) (jp : String → Option LogEntry)
    (file : Option (List String)) (o : ReadLogsOptions) :
    0 ≤ (readLogs cfg jp file o).total := by
  rw [readLogs_total_eq]
  exact Int.natCast_nonneg _

theorem readLogs_totalPages_eq (cfg : HazoLogConfig) (jp : String → Option LogEntry)
    (file : Option (List String)) (o : ReadLogsOptions) :
    (readLogs cfg jp file o).totalPages =
      jsCeilDiv (readLogs cfg jp file o).total
        (jsOrOpt o.pageSize (jsOrI cfg.log_viewer_page_size 50)) := by
  cases file with
  | none => simp [readLogs, jsCeilDiv]
  | some lines => rfl

theorem readLogs_logs_eq (cfg : HazoLogConfig) (jp : String → Option LogEntry)
    (file : Option (List String)) (o : ReadLogsOptions) :
    (readLogs cfg jp file o).logs =
      jsSlice (sortedCappedOf cfg jp file o)
        ((jsOrOpt o.page 1 - 1) * jsOrOpt o.pageSize (jsOrI cfg.log_viewer_page_size 50))
        ((jsOrOpt o.page 1 - 1) * jsOrOpt o.pageSize (jsOrI cfg.log_viewer_page_size 50) +
          jsOrOpt o.pageSize (jsOrI cfg.log_viewer_page_size 50)) := by
  cases file with
  | none => simp [readLogs, sortedCappedOf, jsSlice_nil]
  | some lines => rfl

theorem readLogs_congr (cfg : HazoLogConfig) (jp : String → Option LogEntry)
    (file : Option (List String)) {o o' : ReadLogsOptions}
    (hfilters : ∀ logs, applyFilters logs o = applyFilters logs o')
    (hsort : ∀ logs : List LogEntry,
      applySorting logs o.sortBy o.sortOrder = applySorting logs o'.sortBy o'.sortOrder)
    (hpage : jsOrOpt o.page 1 = jsOrOpt o'.page 1)
    (hps : jsOrOpt o.pageSize (jsOrI cfg.log_viewer_page_size 50) =
      jsOrOpt o'.pageSize (jsOrI cfg.log_viewer_page_size 50)) :
    readLogs cfg jp file o = readLogs cfg jp file o' := by
  cases file with
  | none => simp [readLogs, hpage, hps]
  | some lines => simp [readLogs, hpage, hps, hfilters, hsort]

/-! ## Facts about the metadata queries -/

theorem sortedDistinct_mem {l : List String} {s : String} :
    s ∈ sortStringsAsc (jsSetList l) ↔ s ∈ l :=
  (sortStringsAsc_perm _).mem_iff.trans jsSetList_mem

theorem sortedDistinct_pairwise (l : List String) :
    (sortStringsAsc (jsSetList l)).Pairwise (fun a b => strCmp a b < 0) := by
  have h1 := sortStringsAsc_pairwise (jsSetList l)
  have h2 : (sortStringsAsc (jsSetList l)).Nodup :=
    (sortStringsAsc_perm _).nodup_iff.mpr (jsSetList_nodup l)
  refine (h1.and h2).imp ?_
  rintro a b ⟨hle, hne⟩
  have h0 : strCmp a b ≠ 0 := fun h => hne (strCmp_eq_zero_iff.mp h)
  omega

theorem mem_getUniquePackages {jp : String → Option LogEntry}
    {file : Option (List String)} {s : String} :
    s ∈ getUniquePackages jp file ↔
      s ≠ "" ∧ ∃ log ∈ dayRecords jp file, log.package = s := by
  cases file with
  | none => simp [getUniquePackages, dayRecords]
  | some lines =>
    simp only [getUniquePackages, dayRecords]
    rw [sortedDistinct_mem, List.mem_filterMap]
    constructor
    · rintro ⟨log, hlog, hpick⟩
      split_ifs at hpick with hp
      all_goals first
        | exact Option.noConfusion hpick
        | (have hs : log.package = s := Option.some.inj hpick
           exact ⟨by rw [← hs]; exact hp, log, hlog, hs⟩)
    · rintro ⟨hs, log, hlog, hps⟩
      exact ⟨log, hlog, by rw [if_neg (hps ▸ hs), hps]⟩

theorem mem_getUniqueExecutionIds {jp : String → Option LogEntry}
    {file : Option (List String)} {s : String} :
    s ∈ getUniqueExecutionIds jp file ↔
      s ≠ "" ∧ ∃ log ∈ dayRecords jp file, log.executionId = s := by
  cases file with
  | none => simp [getUniqueExecutionIds, dayRecords]
  | some lines =>
    simp only [getUniqueExecutionIds, dayRecords]
    rw [sortedDistinct_mem, List.mem_filterMap]
    constructor
    · rintro ⟨log, hlog, hpick⟩
      split_ifs at hpick with hp
      all_goals first
        | exact Option.noConfusion hpick
        | (have hs : log.executionId = s := Option.some.inj hpick
           exact ⟨by rw [← hs]; exact hp, log, hlog, hs⟩)
    · rintro ⟨hs, log, hlog, hps⟩
      exact ⟨log, hlog, by rw [if_neg (hps ▸ hs), hps]⟩

theorem mem_getUniqueSessionIds {jp : String → Option LogEntry}
    {file : Option (List String)} {s : String} :
    s ∈ getUniqueSessionIds jp file ↔
      s ≠ "" ∧ ∃ log ∈ dayRecords jp file, log.sessionId = some s := by
  cases file with
  | none => simp [getUniqueSessionIds, dayRecords]
  | some lines =>
    simp only [getUniqueSessionIds, dayRecords]
    rw [sortedDistinct_mem, List.mem_filterMap]
    constructor
    · rintro ⟨log, hlog, hpick⟩
      cases hsid : log.sessionId with
      | none => rw [hsid] at hpick; exact absurd hpick (by simp)
      | some v =>
        rw [hsid] at hpick
        simp only at hpick
        split_ifs at hpick with hv
        all_goals first
          | exact Option.noConfusion hpick
          | (have hs : v = s := Option.some.inj hpick
             exact ⟨by rw [← hs]; exact hv, log, hlog, by rw [← hs]; exact hsid⟩)
    · rintro ⟨hs, log, hlog, hps⟩
      refine ⟨log, hlog, ?_⟩
      rw [hps]
      simp only
      rw [if_neg hs]

theorem mem_getUniqueReferences {jp : String → Option LogEntry}
    {file : Option (List String)} {s : String} :
    s ∈ getUniqueReferences jp file ↔
      s ≠ "" ∧ ∃ log ∈ dayRecords jp file, log.reference = some s := by
  cases file with
  | none => simp [getUniqueReferences, dayRecords]
  | some lines =>
    simp only [getUniqueReferences, dayRecords]
    rw [sortedDistinct_mem, List.mem_filterMap]
    constructor
    · rintro ⟨log, hlog, hpick⟩
      cases hsid : log.reference with
      | none => rw [hsid] at hpick; exact absurd hpick (by simp)
      | some v =>
        rw [hsid] at hpick
        simp only at hpick
        split_ifs at hpick with hv
        all_goals first
          | exact Option.noConfusion hpick
          | (have hs : v = s := Option.some.inj hpick
             exact ⟨by rw [← hs]; exact hv, log, hlog, by rw [← hs]; exact hsid⟩)
    · rintro ⟨hs, log, hlog, hps⟩
      refine ⟨log, hlog, ?_⟩
      rw [hps]
      simp only
      rw [if_neg hs]

theorem mem_getAvailableLogDates {dir : Option (List String)} {d : String} :
    d ∈ getAvailableLogDates dir ↔
      ∃ f ∈ dir.getD [], matchLogFilename f = some d := by
  cases dir with
  | none => simp [getAvailableLogDates]
  | some files =>
    simp only [getAvailableLogDates, Option.getD]
    rw [(sortStringsDesc_perm _).mem_iff, List.mem_filterMap]

theorem getAvailableLogDates_sorted (dir : Option (List String)) :
    (getAvailableLogDates dir).Pairwise (fun a b => strCmp b a ≤ 0) := by
  cases dir with
  | none => simp [getAvailableLogDates]
  | some files => exact sortStringsDesc_pairwise _

/-! ## Claim theorems -/

/-- C7: when the target date's log file does not exist, `readLogs` does not
fail: it returns an empty, well-formed result with `logs = []`, `total = 0`,
`totalPages = 0`, and the echoed (defaulted) `page` and `pageSize`. -/
theorem readLogs_missing_file (cfg : HazoLogConfig) (jp : String → Option LogEntry)
    (o : ReadLogsOptions) :
    (readLogs cfg jp none o).logs = [] ∧ (readLogs cfg jp none o).total = 0 ∧
    (readLogs cfg jp none o).totalPages = 0 ∧
    (readLogs cfg jp none o).page = jsOrOpt o.page 1 ∧
    (readLogs cfg jp none o).pageSize =
      jsOrOpt o.pageSize (jsOrI cfg.log_viewer_page_size 50) :=
  ⟨rfl, rfl, rfl, rfl, rfl⟩

/-- C8: the parser never fails on malformed content: for every file, parsing
yields exactly the records of the valid (non-blank, JSON-parseable) lines, in
file order, each accepted as-is (`jp` is arbitrary — no schema validation),
and every malformed or blank line is dropped silently; in particular the
record count equals the number of valid lines. -/
theorem parseLogFile_resilient (jp : String → Option LogEntry) (lines : List String) :
    parseLogFile jp lines =
      (lines.filter (fun l => !isBlankLine l && (jp l).isSome)).filterMap jp ∧
    (parseLogFile jp lines).length =
      lines.countP (fun l => !isBlankLine l && (jp l).isSome) := by
  induction lines with
  | nil => exact ⟨rfl, rfl⟩
  | cons line rest ih =>
    obtain ⟨ih1, ih2⟩ := ih
    by_cases hb : isBlankLine line
    · constructor
      · simp [parseLogFile, hb, List.filter_cons, ih1]
      · simp [parseLogFile, hb, List.countP_cons, ih2]
    · cases hj : jp line with
      | some e =>
        constructor
        · simp [parseLogFile, hb, hj, List.filter_cons, List.filterMap_cons, ih1]
        · simp [parseLogFile, hb, hj, List.countP_cons, ih2]
      | none =>
        constructor
        · simp [parseLogFile, hb, hj, List.filter_cons, ih1]
        · simp [parseLogFile, hb, hj, List.countP_cons, ih2]

/-- C4: sorting by `level` ascending uses the severity ranks
`error = 0`, `warn = 1`, `info = 2`, `debug = 3` (not alphabetical order):
in the output every record's rank is at most the rank of every later record,
so every `error` precedes every `warn`, every `warn` every `info`, and every
`info` every `debug`. -/
theorem applySorting_level_ascending (logs : List LogEntry) :
    LEVEL_ORDER Level.error = 0 ∧ LEVEL_ORDER Level.warn = 1 ∧
    LEVEL_ORDER Level.info = 2 ∧ LEVEL_ORDER Level.debug = 3 ∧
    (applySorting logs (some "level") (some "asc")).Pairwise
      (fun a b => LEVEL_ORDER a.level ≤ LEVEL_ORDER b.level) := by
  refine ⟨rfl, rfl, rfl, rfl, ?_⟩
  refine (applySorting_pairwise logs (some "level") (some "asc")).imp ?_
  intro a b h
  simp only [sortKeyCmp, orderMul, if_pos] at h
  omega

/-- C5: the sort stage is stable for every sort key and both directions: any
two records whose sort-key values compare equal keep their relative pre-sort
order (as a two-element sublist) in the output of `applySorting`. -/
theorem applySorting_stable_forall (sb so : Option String) (logs : List LogEntry)
    (a b : LogEntry) (hsub : [a, b].Sublist logs) (heq : sortKeyCmp sb a b = 0) :
    [a, b].Sublist (applySorting logs sb so) :=
  applySorting_stable sb so hsub heq

unseal List.merge List.mergeSort in
/-- Witness for C5 at a concrete input: two records with the same `package`
key keep their order under a descending package sort. -/
theorem applySorting_stable_forall_witness :
    [recErr, recWarn].Sublist [recErr, recWarn] ∧
    sortKeyCmp (some "package") recErr recWarn = 0 ∧
    [recErr, recWarn].Sublist (applySorting [recErr, recWarn] (some "package") none) :=
  ⟨by decide, by decide,
    applySorting_stable_forall (some "package") none [recErr, recWarn] recErr recWarn
      (by decide) (by decide)⟩

/-- C1: the `readLogs` stages run in the order parse, filter, cap, compute
total, sort, paginate.  After filtering, if the match count exceeds
`maxResults` (`config.log_viewer_max_results || 1000`, default 1000), the
sequence is truncated to the first `maxResults` records in file/parse order
before sorting; the returned `total` is the capped count, so whenever the
true filtered-match count exceeds `maxResults`, `total` equals `maxResults`
and not the true count. -/
theorem readLogs_cap_before_sort (cfg : HazoLogConfig) (jp : String → Option LogEntry)
    (lines : List String) (o : ReadLogsOptions)
    (hm : 0 < jsOrI cfg.log_viewer_max_results 1000) :
    (jsOrI cfg.log_viewer_max_results 1000 <
        ((applyFilters (parseLogFile jp lines) o).length : Int) →
      cappedOf cfg jp lines o =
        (applyFilters (parseLogFile jp lines) o).take
          (jsOrI cfg.log_viewer_max_results 1000).toNat) ∧
    (readLogs cfg jp (some lines) o).total = ((cappedOf cfg jp lines o).length : Int) ∧
    (readLogs cfg jp (some lines) o).logs =
      jsSlice (applySorting (cappedOf cfg jp lines o) o.sortBy o.sortOrder)
        (((readLogs cfg jp (some lines) o).page - 1) *
          (readLogs cfg jp (some lines) o).pageSize)
        (((readLogs cfg jp (some lines) o).page - 1) *
          (readLogs cfg jp (some lines) o).pageSize +
          (readLogs cfg jp (some lines) o).pageSize) ∧
    (readLogs cfg jp (some lines) o).total =
      min ((applyFilters (parseLogFile jp lines) o).length : Int)
        (jsOrI cfg.log_viewer_max_results 1000) ∧
    (jsOrI cfg.log_viewer_max_results 1000 <
        ((applyFilters (parseLogFile jp lines) o).length : Int) →
      (readLogs cfg jp (some lines) o).total = jsOrI cfg.log_viewer_max_results 1000 ∧
      (readLogs cfg jp (some lines) o).total ≠
        ((applyFilters (parseLogFile jp lines) o).length : Int)) ∧
    DEFAULT_CONFIG.log_viewer_max_results = 1000 := by
  have hcap : jsOrI cfg.log_viewer_max_results 1000 <
        ((applyFilters (parseLogFile jp lines) o).length : Int) →
      cappedOf cfg jp lines o =
        (applyFilters (parseLogFile jp lines) o).take
          (jsOrI cfg.log_viewer_max_results 1000).toNat := by
    intro h
    unfold cappedOf
    rw [if_pos h]
    exact jsSlice_zero_take _ (le_of_lt hm)
  have htotal : (readLogs cfg jp (some lines) o).total =
      ((cappedOf cfg jp lines o).length : Int) := rfl
  have hmin : (readLogs cfg jp (some lines) o).total =
      min ((applyFilters (parseLogFile jp lines) o).length : Int)
        (jsOrI cfg.log_viewer_max_results 1000) := by
    rw [htotal]
    by_cases h : jsOrI cfg.log_viewer_max_results 1000 <
        ((applyFilters (parseLogFile jp lines) o).length : Int)
    · rw [hcap h, List.length_take]
      push_cast
      omega
    · unfold cappedOf
      rw [if_neg h]
      omega
  refine ⟨hcap, htotal, rfl, hmin, ?_, rfl⟩
  intro h
  rw [hmin]
  omega

/-- Witness for C1 at a concrete input: three filtered records against a
configured cap of 2 give `total = 2`. -/
theorem readLogs_cap_before_sort_witness :
    0 < jsOrI ({ DEFAULT_CONFIG with
      log_viewer_max_results := 2 }).log_viewer_max_results 1000 ∧
    (readLogs { DEFAULT_CONFIG with log_viewer_max_results := 2 } jpTwo
        (some ["1", "2", "1"]) {}).total =
      jsOrI ({ DEFAULT_CONFIG with
        log_viewer_max_results := 2 }).log_viewer_max_results 1000 :=
  ⟨by decide,
    ((readLogs_cap_before_sort { DEFAULT_CONFIG with log_viewer_max_results := 2 }
      jpTwo ["1", "2", "1"] {} (by decide)).2.2.2.2.1 (by decide)).1⟩

/-- C2: for every `readLogs` call whose requested `page` and `pageSize` are
at least 1, the result satisfies `totalPages = ceil(total / pageSize)`
(stated by the two defining inequalities), `totalPages = 0 ↔ total = 0`, and
the returned records are the slice `[(page-1)*pageSize, page*pageSize)` of
the sorted capped set, clamped to its bounds — so a page past the end gives
an empty record list rather than an error. -/
theorem readLogs_pagination (cfg : HazoLogConfig) (jp : String → Option LogEntry)
    (file : Option (List String)) (o : ReadLogsOptions) (p s : Int)
    (hp : o.page = some p) (hp1 : 1 ≤ p) (hs : o.pageSize = some s) (hs1 : 1 ≤ s) :
    (readLogs cfg jp file o).total ≤ (readLogs cfg jp file o).totalPages * s ∧
    ((readLogs cfg jp file o).totalPages - 1) * s < (readLogs cfg jp file o).total ∧
    ((readLogs cfg jp file o).totalPages = 0 ↔ (readLogs cfg jp file o).total = 0) ∧
    (readLogs cfg jp file o).logs =
      ((sortedCappedOf cfg jp file o).drop ((p - 1) * s).toNat).take s.toNat ∧
    ((readLogs cfg jp file o).totalPages < p → (readLogs cfg jp file o).logs = []) := by
  have hpg : jsOrOpt o.page 1 = p := by
    rw [hp]
    show (if p = 0 then 1 else p) = p
    rw [if_neg (by omega)]
  have hps : jsOrOpt o.pageSize (jsOrI cfg.log_viewer_page_size 50) = s := by
    rw [hs]
    show (if s = 0 then jsOrI cfg.log_viewer_page_size 50 else s) = s
    rw [if_neg (by omega)]
  have htot0 : 0 ≤ (readLogs cfg jp file o).total := readLogs_total_nonneg cfg jp file o
  have htp : (readLogs cfg jp file o).totalPages =
      jsCeilDiv (readLogs cfg jp file o).total s := by
    rw [readLogs_totalPages_eq, hps]
  have hbounds := jsCeilDiv_bounds (readLogs cfg jp file o).total
    (show (0 : Int) < s by omega)
  have hlogs : (readLogs cfg jp file o).logs =
      ((sortedCappedOf cfg jp file o).drop ((p - 1) * s).toNat).take s.toNat := by
    rw [readLogs_logs_eq, hpg, hps]
    exact jsSlice_nonneg _ (mul_nonneg (by omega) (by omega)) (by omega)
  refine ⟨?_, ?_, ?_, hlogs, ?_⟩
  · rw [htp]
    exact hbounds.1
  · rw [htp]
    exact hbounds.2
  · rw [htp]
    exact jsCeilDiv_eq_zero_iff htot0 (by omega)
  · intro h
    have h1 : (readLogs cfg jp file o).total ≤
        (readLogs cfg jp file o).totalPages * s := by
      rw [htp]
      exact hbounds.1
    have h2 : (readLogs cfg jp file o).totalPages ≤ p - 1 := by omega
    have h3 : (readLogs cfg jp file o).totalPages * s ≤ (p - 1) * s :=
      mul_le_mul_of_nonneg_right h2 (by omega)
    have h4 : (((sortedCappedOf cfg jp file o).length : Int)) ≤ (p - 1) * s := by
      rw [← readLogs_total_eq]
      exact le_trans h1 h3
    rw [hlogs]
    rw [List.drop_eq_nil_of_le ?_, List.take_nil]
    generalize hq : (p - 1) * s = q at h4 ⊢
    omega

/-- Witness for C2 at a concrete input: page 2 of size 1 over a two-record
file. -/
theorem readLogs_pagination_witness :
    (readLogs DEFAULT_CONFIG jpTwo (some ["1", "2"])
        { page := some 2, pageSize := some 1 }).total ≤
      (readLogs DEFAULT_CONFIG jpTwo (some ["1", "2"])
        { page := some 2, pageSize := some 1 }).totalPages * 1 ∧
    (readLogs DEFAULT_CONFIG jpTwo (some ["1", "2"])
        { page := some 2, pageSize := some 1 }).logs =
      ((sortedCappedOf DEFAULT_CONFIG jpTwo (some ["1", "2"])
          { page := some 2, pageSize := some 1 }).drop
        ((((2 : Int) - 1) * 1).toNat)).take (1 : Int).toNat :=
  ⟨(readLogs_pagination DEFAULT_CONFIG jpTwo (some ["1", "2"])
      { page := some 2, pageSize := some 1 } 2 1 rfl (by decide) rfl (by decide)).1,
    (readLogs_pagination DEFAULT_CONFIG jpTwo (some ["1", "2"])
      { page := some 2, pageSize := some 1 } 2 1 rfl (by decide) rfl (by decide)).2.2.2.1⟩

theorem sortKeyCmp_unknown {s : String}
    (hs : s ∉ (["timestamp", "level", "package", "executionId", "sessionId",
      "reference"] : List String)) (a b : LogEntry) :
    sortKeyCmp (some s) a b = sortKeyCmp (some "timestamp") a b := by
  have h1 : ¬(s = "level") := fun h => hs (by simp [h])
  have h2 : ¬(s = "package") := fun h => hs (by simp [h])
  have h3 : ¬(s = "executionId") := fun h => hs (by simp [h])
  have h4 : ¬(s = "sessionId") := fun h => hs (by simp [h])
  have h5 : ¬(s = "reference") := fun h => hs (by simp [h])
  simp [sortKeyCmp, h1, h2, h3, h4, h5]

theorem applySorting_unknown {s : String}
    (hs : s ∉ (["timestamp", "level", "package", "executionId", "sessionId",
      "reference"] : List String)) (logs : List LogEntry) (ord : Option String) :
    applySorting logs (some s) ord = applySorting logs (some "timestamp") ord := by
  rw [applySorting_eq, applySorting_eq]
  congr 1
  funext a b
  rw [sortKeyCmp_unknown hs]

/-- Counterexample to C3 as stated: a record whose `sessionId` is present
and equal to `""` does not pass a sessionId filter whose set contains `""`,
even though its field value is a member of the filter set (the JS truthiness
guard rejects the empty string). -/
theorem applyFilters_membership_counterexample :
    recEmptySession.sessionId = some "" ∧ ("" ∈ ([""] : List String)) ∧
    applyFilters [recEmptySession] { sessionId := some [""] } = [] :=
  ⟨rfl, by decide, by decide⟩

/-- C3 (amended): for every record and non-empty sessionId (resp. reference)
filter set, a record lacking the field never passes that dimension (absence
is not a wildcard), while a record whose field value is a **non-empty**
member of the filter set passes the dimension; all present dimensions
combine with AND semantics (`applyFilters` filters on the conjunction of the
six dimension predicates). -/
theorem applyFilters_absence_rule (o : ReadLogsOptions) (log : LogEntry)
    (fl fr : List String) (hse : o.sessionId = some fl) (hfl : fl ≠ [])
    (hre : o.reference = some fr) (hfr : fr ≠ []) :
    (log.sessionId = none → sessionDim o log = false) ∧
    (∀ v, log.sessionId = some v → v ≠ "" → v ∈ fl → sessionDim o log = true) ∧
    (log.reference = none → refDim o log = false) ∧
    (∀ v, log.reference = some v → v ≠ "" → v ∈ fr → refDim o log = true) ∧
    (∀ logs, applyFilters logs o = logs.filter (passAll o)) := by
  have hfl0 : 0 < fl.length := List.length_pos.mpr hfl
  have hfr0 : 0 < fr.length := List.length_pos.mpr hfr
  refine ⟨?_, ?_, ?_, ?_, fun logs => applyFilters_eq_filter logs o⟩
  · intro hnone
    simp [sessionDim, hse, hfl0, hnone]
  · intro v hv hvne hvm
    simp [sessionDim, hse, hfl0, hv, hvne, hvm]
  · intro hnone
    simp [refDim, hre, hfr0, hnone]
  · intro v hv hvne hvm
    simp [refDim, hre, hfr0, hv, hvne, hvm]

/-- Witness for C3 (amended) at concrete inputs: a record with no
`sessionId` fails an active session filter; a record with matching non-empty
`sessionId` passes the dimension. -/
theorem applyFilters_absence_rule_witness :
    sessionDim { sessionId := some ["s1"], reference := some ["r1"] } recErr = false ∧
    sessionDim { sessionId := some ["s1"], reference := some ["r1"] } recS1 = true :=
  ⟨(applyFilters_absence_rule { sessionId := some ["s1"], reference := some ["r1"] }
      recErr ["s1"] ["r1"] rfl (by decide) rfl (by decide)).1 rfl,
    (applyFilters_absence_rule { sessionId := some ["s1"], reference := some ["r1"] }
      recS1 ["s1"] ["r1"] rfl (by decide) rfl (by decide)).2.1 "s1" rfl (by decide)
      (by decide)⟩

/-- C10: a record whose optional `sessionId` or `reference` field is present
but equal to the empty string is treated exactly like a record lacking that
field: it never passes an active sessionId/reference filter (even one whose
set contains `""`), and it is omitted from the corresponding distinct-value
metadata results — every such check tests JS truthiness, not presence. -/
theorem empty_string_optional_fields (o : ReadLogsOptions) (log logNone : LogEntry)
    (fl fr : List String) (jp : String → Option LogEntry)
    (file : Option (List String)) :
    (o.sessionId = some fl → 0 < fl.length → log.sessionId = some "" →
      sessionDim o log = false ∧ ∀ logs, log ∉ applyFilters logs o) ∧
    (o.reference = some fr → 0 < fr.length → log.reference = some "" →
      refDim o log = false ∧ ∀ logs, log ∉ applyFilters logs o) ∧
    "" ∉ getUniqueSessionIds jp file ∧
    "" ∉ getUniqueReferences jp file ∧
    (log.sessionId = some "" → logNone.sessionId = none →
      sessionDim o log = sessionDim o logNone) ∧
    (log.reference = some "" → logNone.reference = none →
      refDim o log = refDim o logNone) := by
  refine ⟨?_, ?_, ?_, ?_, ?_, ?_⟩
  · intro hse hlen hempty
    have hdim : sessionDim o log = false := by simp [sessionDim, hse, hlen, hempty]
    refine ⟨hdim, ?_⟩
    intro logs hmem
    rw [applyFilters_eq_filter] at hmem
    have hpass := (List.mem_filter.mp hmem).2
    simp [passAll, hdim] at hpass
  · intro hre hlen hempty
    have hdim : refDim o log = false := by simp [refDim, hre, hlen, hempty]
    refine ⟨hdim, ?_⟩
    intro logs hmem
    rw [applyFilters_eq_filter] at hmem
    have hpass := (List.mem_filter.mp hmem).2
    simp [passAll, hdim] at hpass
  · intro h
    exact (mem_getUniqueSessionIds.mp h).1 rfl
  · intro h
    exact (mem_getUniqueReferences.mp h).1 rfl
  · intro h1 h2
    cases hcase : o.sessionId with
    | none => simp [sessionDim, hcase]
    | some fl2 => simp [sessionDim, hcase, h1, h2]
  · intro h1 h2
    cases hcase : o.reference with
    | none => simp [refDim, hcase]
    | some fr2 => simp [refDim, hcase, h1, h2]

/-- Witness for C10 at concrete inputs: the empty-string record fails a
filter whose set contains `""`, and `""` never appears in the distinct
session ids. -/
theorem empty_string_optional_fields_witness :
    sessionDim { sessionId := some [""] } recEmptySession = false ∧
    "" ∉ getUniqueSessionIds jpTwo (some ["1"]) :=
  ⟨((empty_string_optional_fields { sessionId := some [""] } recEmptySession recErr
      [""] [""] jpTwo (some ["1"])).1 rfl (by decide) rfl).1,
    (empty_string_optional_fields { sessionId := some [""] } recEmptySession recErr
      [""] [""] jpTwo (some ["1"])).2.2.1⟩

unseal List.merge List.mergeSort in
/-- Counterexample to C9 as stated: a record whose `sessionId` is present
but equal to `""` is also dropped from the distinct-value result (the claim
allows dropping only records where the field is absent, which would give
`[""]` here). -/
theorem getUniqueSessionIds_empty_counterexample :
    recEmptySession.sessionId = some "" ∧
    getUniqueSessionIds (fun _ => some recEmptySession) (some ["x"]) = [] :=
  ⟨rfl, by decide⟩

/-- C9 (amended): each `getUnique*` operation returns the distinct values of
its field over the full day's records (no cap, no filter), dropping records
where the field is absent **or equal to the empty string**, sorted
lexicographically strictly ascending; `getAvailableLogDates` returns the
dates captured from directory file names matching `hazo-YYYY-MM-DD.log`
(not file contents), sorted descending (most recent first). -/
theorem metadata_queries_spec (jp : String → Option LogEntry)
    (file dir : Option (List String)) :
    (∀ s, s ∈ getUniquePackages jp file ↔
      s ≠ "" ∧ ∃ log ∈ dayRecords jp file, log.package = s) ∧
    (getUniquePackages jp file).Pairwise (fun a b => strCmp a b < 0) ∧
    (∀ s, s ∈ getUniqueExecutionIds jp file ↔
      s ≠ "" ∧ ∃ log ∈ dayRecords jp file, log.executionId = s) ∧
    (getUniqueExecutionIds jp file).Pairwise (fun a b => strCmp a b < 0) ∧
    (∀ s, s ∈ getUniqueSessionIds jp file ↔
      s ≠ "" ∧ ∃ log ∈ dayRecords jp file, log.sessionId = some s) ∧
    (getUniqueSessionIds jp file).Pairwise (fun a b => strCmp a b < 0) ∧
    (∀ s, s ∈ getUniqueReferences jp file ↔
      s ≠ "" ∧ ∃ log ∈ dayRecords jp file, log.reference = some s) ∧
    (getUniqueReferences jp file).Pairwise (fun a b => strCmp a b < 0) ∧
    (∀ d, d ∈ getAvailableLogDates dir ↔
      ∃ f ∈ dir.getD [], matchLogFilename f = some d) ∧
    (getAvailableLogDates dir).Pairwise (fun a b => strCmp b a ≤ 0) := by
  refine ⟨fun s => mem_getUniquePackages, ?_, fun s => mem_getUniqueExecutionIds, ?_,
    fun s => mem_getUniqueSessionIds, ?_, fun s => mem_getUniqueReferences, ?_,
    fun d => mem_getAvailableLogDates, getAvailableLogDates_sorted dir⟩
  · cases file with
    | none => simp [getUniquePackages]
    | some lines => exact sortedDistinct_pairwise _
  · cases file with
    | none => simp [getUniqueExecutionIds]
    | some lines => exact sortedDistinct_pairwise _
  · cases file with
    | none => simp [getUniqueSessionIds]
    | some lines => exact sortedDistinct_pairwise _
  · cases file with
    | none => simp [getUniqueReferences]
    | some lines => exact sortedDistinct_pairwise _

unseal List.merge List.mergeSort in
/-- Counterexample to C6 as stated: with `sortBy=bogus` (unrecognized) and
`sortOrder=asc`, the result is in ascending timestamp order (`recErr`, the
earlier record, first) — not the claimed timestamp-descending order. -/
theorem handleGetLogs_unknown_sortBy_counterexample :
    (handleGetLogs DEFAULT_CONFIG jpTwo (some ["1", "2"])
        { sortBy := some "bogus", sortOrder := some "asc" }).logs =
      [recErr, recWarn] ∧
    strCmp recErr.timestamp recWarn.timestamp < 0 :=
  ⟨by decide, by decide⟩

/-- C6 (amended): invalid query parameters are treated as "use default"
rather than rejected: an unrecognized `sortBy` behaves exactly like
`sortBy = timestamp` (with the requested direction — descending only when
`sortOrder` is not `asc`), and a non-numeric `page` parameter behaves like
an absent one, yielding the default page 1, with no error in either case. -/
theorem invalid_query_param_defaults (cfg : HazoLogConfig)
    (jp : String → Option LogEntry) (file : Option (List String))
    (o : ReadLogsOptions) (sp : SearchParams) :
    (∀ s, o.sortBy = some s →
      s ∉ (["timestamp", "level", "package", "executionId", "sessionId",
        "reference"] : List String) →
      readLogs cfg jp file o =
        readLogs cfg jp file { o with sortBy := some "timestamp" }) ∧
    (∀ pstr, sp.page = some pstr → parseIntJS pstr = none →
      handleGetLogs cfg jp file sp = handleGetLogs cfg jp file { sp with page := none } ∧
      (handleGetLogs cfg jp file sp).page = 1) := by
  constructor
  · intro s hsb hs
    apply readLogs_congr
    · intro logs
      rfl
    · intro logs
      rw [hsb]
      show applySorting logs (some s) o.sortOrder =
        applySorting logs (some "timestamp") o.sortOrder
      exact applySorting_unknown hs logs o.sortOrder
    · rfl
    · rfl
  · intro pstr hpp hnan
    constructor
    · unfold handleGetLogs
      apply readLogs_congr
      · intro logs
        rfl
      · intro logs
        rfl
      · rw [hpp]
        by_cases hempty : pstr = ""
        · subst hempty
          rfl
        · show jsOrOpt (parseIntJS (if pstr = "" then "1" else pstr)) 1 =
            jsOrOpt (parseIntJS (jsOrStrD none "1")) 1
          rw [if_neg hempty, hnan]
          decide
      · rfl
    · unfold handleGetLogs
      rw [readLogs_page_eq]
      rw [hpp]
      by_cases hempty : pstr = ""
      · subst hempty
        rfl
      · show jsOrOpt (parseIntJS (if pstr = "" then "1" else pstr)) 1 = 1
        rw [if_neg hempty, hnan]
        rfl

/-- Witness for C6 (amended) at concrete inputs: an unrecognized `sortBy`
gives the same result as `sortBy = timestamp`, and a non-numeric page
parameter yields page 1. -/
theorem invalid_query_param_defaults_witness :
    readLogs DEFAULT_CONFIG jpTwo (some ["1", "2"]) { sortBy := some "bogus" } =
      readLogs DEFAULT_CONFIG jpTwo (some ["1", "2"])
        { ({ sortBy := some "bogus" } : ReadLogsOptions) with
          sortBy := some "timestamp" } ∧
    (handleGetLogs DEFAULT_CONFIG jpTwo (some ["1", "2"]) { page := some "abc" }).page = 1 :=
  ⟨(invalid_query_param_defaults DEFAULT_CONFIG jpTwo (some ["1", "2"])
      { sortBy := some "bogus" } { page := some "abc" }).1 "bogus" rfl (by decide),
    ((invalid_query_param_defaults DEFAULT_CONFIG jpTwo (some ["1", "2"])
      { sortBy := some "bogus" } { page := some "abc" }).2 "abc" rfl (by decide)).2⟩
